import Mathlib

/-!
Verification development for the indicator/signal core of the
trading-assistant repository.

The indicator engine (`python/engine.py`) and the classifier block of
`analyze_stock` (`python/backend.py`, lines 179-193) are embedded
shallowly: price series become `List ℚ`, the numeric arithmetic is exact
rational arithmetic, and the one square root (`calculate_volatility`)
lands in `ℝ` via `Real.sqrt`.  Loops become folds or structural
recursion in the same iteration order as the source.
-/

namespace TradingEngine

/-- Mean of a price list, as in `np.mean` inside `calculate_volatility`
and `calculate_sma`: sum divided by length. -/
def listMean (ps : List ℚ) : ℚ := ps.sum / ps.length

/-- `calculate_sma(prices)` from `engine.py` lines 19-24: 0.0 on the
empty series, else the arithmetic mean of the whole series. -/
def calculate_sma (ps : List ℚ) : ℚ :=
  if ps = [] then 0 else listMean ps

/-- The two-pass population variance computed inside
`calculate_volatility` (`engine.py` line 15): mean of squared
deviations from the mean. -/
def variance (ps : List ℚ) : ℚ :=
  (ps.map (fun p => (p - listMean ps) ^ 2)).sum / ps.length

/-- `calculate_volatility(prices)` from `engine.py` lines 9-16: 0.0 on
the empty series, else the square root of the population variance. -/
noncomputable def calculate_volatility (ps : List ℚ) : ℝ :=
  if ps = [] then 0 else Real.sqrt (variance ps)

/-- `calculate_ema(prices, alpha=0.1)` from `engine.py` lines 27-35:
0.0 on the empty series, else seeded with the first price and folded
left over the rest with `ema = alpha * p + (1 - alpha) * ema`. -/
def calculate_ema (ps : List ℚ) (alpha : ℚ := 1/10) : ℚ :=
  match ps with
  | [] => 0
  | p :: rest => rest.foldl (fun ema x => alpha * x + (1 - alpha) * ema) p

/-- The consecutive differences `prices[i] - prices[i-1]` for
`i = 1..n-1`, in index order, as accumulated by the loop of
`calculate_rsi` (`engine.py` lines 45-50). -/
def deltas : List ℚ → List ℚ
  | a :: b :: rest => (b - a) :: deltas (b :: rest)
  | _ => []

/-- The `gain` accumulator of `calculate_rsi`: starting from 0.0, the
loop adds each positive difference. -/
def rsiGain (ps : List ℚ) : ℚ :=
  (deltas ps).foldl (fun g d => if d > 0 then g + d else g) 0

/-- The `loss` accumulator of `calculate_rsi`: starting from 0.0, the
loop subtracts each non-positive difference. -/
def rsiLoss (ps : List ℚ) : ℚ :=
  (deltas ps).foldl (fun l d => if d > 0 then l else l - d) 0

/-- `calculate_rsi(prices)` from `engine.py` lines 38-54: 50.0 for
series shorter than 2 points; 100.0 when the accumulated loss is zero;
otherwise `100 - 100 / (1 + gain / loss)`. -/
def calculate_rsi (ps : List ℚ) : ℚ :=
  if ps.length < 2 then 50
  else if rsiLoss ps = 0 then 100
  else 100 - 100 / (1 + rsiGain ps / rsiLoss ps)

/-- The interior indices `i = 1..n-2` at which the loop of
`find_support_resistance` (`engine.py` line 65) appends a support:
`prices[i] < prices[i-1]` and `prices[i] < prices[i+1]`. -/
def supportIndices (ps : List ℚ) : List ℕ :=
  (List.range' 1 (ps.length - 2)).filter
    (fun i => ps.getD i 0 < ps.getD (i - 1) 0 ∧ ps.getD i 0 < ps.getD (i + 1) 0)

/-- The interior indices `i = 1..n-2` at which the loop of
`find_support_resistance` (`engine.py` line 68) appends a resistance:
`prices[i] > prices[i-1]` and `prices[i] > prices[i+1]`. -/
def resistanceIndices (ps : List ℚ) : List ℕ :=
  (List.range' 1 (ps.length - 2)).filter
    (fun i => ps.getD (i - 1) 0 < ps.getD i 0 ∧ ps.getD (i + 1) 0 < ps.getD i 0)

/-- `find_support_resistance(prices)` from `engine.py` lines 57-71: two
empty sequences for series shorter than 3 points, else the prices at
the qualifying interior indices, in index order. -/
def find_support_resistance (ps : List ℚ) : List ℚ × List ℚ :=
  if ps.length < 3 then ([], [])
  else ((supportIndices ps).map (fun i => ps.getD i 0),
        (resistanceIndices ps).map (fun i => ps.getD i 0))

/-- Minimum of a list, as `numpy.ndarray.min` on a non-empty array
(`backend.py` line 184); 0 is a junk default for the empty list, which
the callers never hit. -/
def listMin (l : List ℚ) : ℚ := l.min?.getD 0

/-- Maximum of a list, as `numpy.ndarray.max` on a non-empty array
(`backend.py` line 185); 0 is a junk default for the empty list. -/
def listMax (l : List ℚ) : ℚ := l.max?.getD 0

/-- `support_level` from `backend.py` line 184: the minimum of the
detected supports if any, else the minimum of the whole series. -/
def support_level (ps : List ℚ) : ℚ :=
  if (find_support_resistance ps).1 ≠ [] then listMin (find_support_resistance ps).1
  else listMin ps

/-- `resistance_level` from `backend.py` line 185: the maximum of the
detected resistances if any, else the maximum of the whole series. -/
def resistance_level (ps : List ℚ) : ℚ :=
  if (find_support_resistance ps).2 ≠ [] then listMax (find_support_resistance ps).2
  else listMax ps

/-- The trend labels of the classifier (`backend.py` line 188). -/
inductive Trend | bullish | bearish | neutral
deriving DecidableEq, Repr

/-- The risk labels of the classifier (`backend.py` line 191). -/
inductive Risk | low | medium | high
deriving DecidableEq, Repr

/-- The final signals of the classifier (`backend.py` lines 192-193). -/
inductive Signal | buy | sell | hold
deriving DecidableEq, Repr

/-- `trend` from `backend.py` line 188: bullish if `ema > 1.01 * sma`,
bearish if `ema < 0.99 * sma`, else neutral. -/
def trend (ema sma : ℚ) : Trend :=
  if ema > (101/100) * sma then .bullish
  else if ema < (99/100) * sma then .bearish
  else .neutral

/-- `risk_ratio` from `backend.py` line 190: `vol / sma` if `sma > 0`
else 0. -/
def risk_ratio (vol sma : ℚ) : ℚ :=
  if sma > 0 then vol / sma else 0

/-- `risk` from `backend.py` line 191: high if the ratio exceeds 0.08,
medium if it exceeds 0.04, else low. -/
def risk (vol sma : ℚ) : Risk :=
  if risk_ratio vol sma > 8/100 then .high
  else if risk_ratio vol sma > 4/100 then .medium
  else .low

/-- `final_signal` from `backend.py` lines 192-193: BUY if bullish with
`rsi < 60` and risk not high; SELL if bearish with `rsi > 40`; else
HOLD. -/
def final_signal (t : Trend) (rsi : ℚ) (r : Risk) : Signal :=
  if t = .bullish ∧ rsi < 60 ∧ r ≠ .high then .buy
  else if t = .bearish ∧ rsi > 40 then .sell
  else .hold

/-! ### Helper lemmas about the fold accumulators of `calculate_rsi` -/

theorem gain_foldl (ds : List ℚ) (a : ℚ) :
    ds.foldl (fun g d => if d > 0 then g + d else g) a
      = a + (ds.filter (fun d => d > 0)).sum := by
  induction ds generalizing a with
  | nil => simp
  | cons d ds ih =>
    by_cases h : d > 0
    · simp [List.filter_cons, h, ih]
      ring
    · simp [List.filter_cons, h, ih]

theorem loss_foldl (ds : List ℚ) (a : ℚ) :
    ds.foldl (fun l d => if d > 0 then l else l - d) a
      = a - (ds.filter (fun d => d ≤ 0)).sum := by
  induction ds generalizing a with
  | nil => simp
  | cons d ds ih =>
    by_cases h : d > 0
    · have h1 : ¬ d ≤ 0 := by linarith
      simp [List.filter_cons, h, h1, ih]
    · have h1 : d ≤ 0 := by linarith
      simp [List.filter_cons, h, h1, ih]
      ring

theorem sum_filter_nonpos (ds : List ℚ) :
    (ds.filter (fun d => d ≤ 0)).sum = (ds.filter (fun d => d < 0)).sum := by
  induction ds with
  | nil => rfl
  | cons d ds ih =>
    rcases lt_trichotomy d 0 with h | h | h
    · have h1 : d ≤ 0 := h.le
      simp [List.filter_cons, h, h1, ih]
    · subst h
      simp [List.filter_cons, ih]
    · have h1 : ¬ d < 0 := by linarith
      have h2 : ¬ d ≤ 0 := by linarith
      simp [List.filter_cons, h1, h2, ih]

theorem sum_map_neg (l : List ℚ) : (l.map (fun d => -d)).sum = - l.sum := by
  induction l with
  | nil => simp
  | cons d ds ih => simp [ih]; ring

theorem rsiGain_eq (ps : List ℚ) :
    rsiGain ps = ((deltas ps).filter (fun d => d > 0)).sum := by
  rw [rsiGain, gain_foldl]; ring

theorem rsiLoss_eq (ps : List ℚ) :
    rsiLoss ps = -((deltas ps).filter (fun d => d ≤ 0)).sum := by
  rw [rsiLoss, loss_foldl]; ring

theorem rsiLoss_eq_magnitude (ps : List ℚ) :
    rsiLoss ps = (((deltas ps).filter (fun d => d < 0)).map (fun d => -d)).sum := by
  rw [rsiLoss_eq, sum_filter_nonpos, sum_map_neg]

/-! ### Helper lemmas about `deltas` -/

theorem deltas_cons₂ (a b : ℚ) (l : List ℚ) :
    deltas (a :: b :: l) = (b - a) :: deltas (b :: l) := rfl

theorem deltas_nonneg_of_chain_le (ps : List ℚ) (h : List.Chain' (· ≤ ·) ps) :
    ∀ d ∈ deltas ps, 0 ≤ d := by
  induction ps with
  | nil => simp [deltas]
  | cons a tl ih =>
    cases tl with
    | nil => simp [deltas]
    | cons b l =>
      rw [List.chain'_cons] at h
      intro d hd
      rw [deltas_cons₂, List.mem_cons] at hd
      rcases hd with rfl | hd
      · linarith [h.1]
      · exact ih h.2 d hd

theorem deltas_neg_of_chain_gt (ps : List ℚ) (h : List.Chain' (· > ·) ps) :
    ∀ d ∈ deltas ps, d < 0 := by
  induction ps with
  | nil => simp [deltas]
  | cons a tl ih =>
    cases tl with
    | nil => simp [deltas]
    | cons b l =>
      rw [List.chain'_cons] at h
      intro d hd
      rw [deltas_cons₂, List.mem_cons] at hd
      rcases hd with rfl | hd
      · have : b < a := h.1
        linarith
      · exact ih h.2 d hd

theorem rsiLoss_eq_zero_of_nonneg (ps : List ℚ) (h : ∀ d ∈ deltas ps, 0 ≤ d) :
    rsiLoss ps = 0 := by
  rw [rsiLoss_eq_magnitude]
  have hnil : (deltas ps).filter (fun d => d < 0) = [] := by
    rw [List.filter_eq_nil_iff]
    intro d hd
    simpa using not_lt.mpr (h d hd)
  rw [hnil]
  rfl

theorem deltas_replicate (v : ℚ) :
    ∀ n, deltas (List.replicate n v) = List.replicate (n - 1) 0
  | 0 => rfl
  | 1 => rfl
  | n + 2 => by
    have h1 : List.replicate (n + 2) v = v :: v :: List.replicate n v := by
      simp [List.replicate_succ]
    have h2 : v :: List.replicate n v = List.replicate (n + 1) v := by
      simp [List.replicate_succ]
    rw [h1, deltas_cons₂, h2, deltas_replicate v (n + 1)]
    simp [List.replicate_succ]

/-! ### Helper lemmas about constant (replicated) series -/

theorem listMean_replicate (n : ℕ) (v : ℚ) (h : 1 ≤ n) :
    listMean (List.replicate n v) = v := by
  have hn : (n : ℚ) ≠ 0 := Nat.cast_ne_zero.mpr (by omega)
  simp [listMean, List.sum_replicate, nsmul_eq_mul]
  field_simp

theorem variance_replicate (n : ℕ) (v : ℚ) (h : 1 ≤ n) :
    variance (List.replicate n v) = 0 := by
  simp [variance, listMean_replicate n v h, List.map_replicate, List.sum_replicate]

theorem ema_foldl_const (alpha v : ℚ) (m : ℕ) :
    (List.replicate m v).foldl (fun ema x => alpha * x + (1 - alpha) * ema) v = v := by
  induction m with
  | zero => rfl
  | succ m ih =>
    rw [List.replicate_succ, List.foldl_cons]
    have hv : alpha * v + (1 - alpha) * v = v := by ring
    rw [hv]
    exact ih

/-! ### Helper lemmas about indexing and `find_support_resistance` -/

theorem getD_eq_get (ps : List ℚ) (i : ℕ) (h : i < ps.length) :
    ps.getD i 0 = ps.get ⟨i, h⟩ := by
  simp [List.getD_eq_getElem?_getD, List.getElem?_eq_getElem h]

theorem getD_mem (ps : List ℚ) (i : ℕ) (h : i < ps.length) :
    ps.getD i 0 ∈ ps := by
  rw [getD_eq_get ps i h]
  exact List.get_mem ps i h

theorem getD_replicate (n : ℕ) (v : ℚ) (i : ℕ) (h : i < n) :
    (List.replicate n v).getD i 0 = v := by
  simp [List.getD_eq_getElem?_getD, List.getElem?_replicate, h]

theorem chain'_le_getD (ps : List ℚ) (h : List.Chain' (· ≤ ·) ps) (i : ℕ)
    (hi : i + 1 < ps.length) : ps.getD i 0 ≤ ps.getD (i + 1) 0 := by
  have hr := (List.chain'_iff_get.mp h) i (by omega)
  rw [getD_eq_get ps i (by omega), getD_eq_get ps (i + 1) (by omega)]
  exact hr

theorem mem_supportIndices (ps : List ℚ) (i : ℕ) :
    i ∈ supportIndices ps ↔
      1 ≤ i ∧ i + 1 < ps.length ∧
        ps.getD i 0 < ps.getD (i - 1) 0 ∧ ps.getD i 0 < ps.getD (i + 1) 0 := by
  simp only [supportIndices, List.mem_filter, List.mem_range'_1, decide_eq_true_eq]
  constructor
  · rintro ⟨⟨h1, h2⟩, hc⟩
    exact ⟨h1, by omega, hc⟩
  · rintro ⟨h1, h2, hc⟩
    exact ⟨⟨h1, by omega⟩, hc⟩

theorem mem_resistanceIndices (ps : List ℚ) (i : ℕ) :
    i ∈ resistanceIndices ps ↔
      1 ≤ i ∧ i + 1 < ps.length ∧
        ps.getD (i - 1) 0 < ps.getD i 0 ∧ ps.getD (i + 1) 0 < ps.getD i 0 := by
  simp only [resistanceIndices, List.mem_filter, List.mem_range'_1, decide_eq_true_eq]
  constructor
  · rintro ⟨⟨h1, h2⟩, hc⟩
    exact ⟨h1, by omega, hc⟩
  · rintro ⟨h1, h2, hc⟩
    exact ⟨⟨h1, by omega⟩, hc⟩

theorem fsr_short (ps : List ℚ) (h : ps.length < 3) :
    find_support_resistance ps = ([], []) := by
  rw [find_support_resistance, if_pos h]

theorem fsr_fst (ps : List ℚ) (h : 3 ≤ ps.length) :
    (find_support_resistance ps).1 = (supportIndices ps).map (fun i => ps.getD i 0) := by
  rw [find_support_resistance, if_neg (by omega)]

theorem fsr_snd (ps : List ℚ) (h : 3 ≤ ps.length) :
    (find_support_resistance ps).2 = (resistanceIndices ps).map (fun i => ps.getD i 0) := by
  rw [find_support_resistance, if_neg (by omega)]

theorem mem_fsr_fst (ps : List ℚ) (x : ℚ) (hx : x ∈ (find_support_resistance ps).1) :
    x ∈ ps := by
  by_cases h : ps.length < 3
  · rw [fsr_short ps h] at hx
    simp at hx
  · rw [fsr_fst ps (by omega)] at hx
    obtain ⟨i, hi, rfl⟩ := List.mem_map.mp hx
    exact getD_mem ps i (by have := (mem_supportIndices ps i).mp hi; omega)

theorem mem_fsr_snd (ps : List ℚ) (x : ℚ) (hx : x ∈ (find_support_resistance ps).2) :
    x ∈ ps := by
  by_cases h : ps.length < 3
  · rw [fsr_short ps h] at hx
    simp at hx
  · rw [fsr_snd ps (by omega)] at hx
    obtain ⟨i, hi, rfl⟩ := List.mem_map.mp hx
    exact getD_mem ps i (by have := (mem_resistanceIndices ps i).mp hi; omega)

theorem supportIndices_eq_nil_of_chain_le (ps : List ℚ)
    (h : List.Chain' (· ≤ ·) ps) : supportIndices ps = [] := by
  rw [supportIndices, List.filter_eq_nil_iff]
  intro i hi
  rw [List.mem_range'_1] at hi
  have hlt : i + 1 < ps.length := by omega
  have h1 : ps.getD (i - 1) 0 ≤ ps.getD i 0 := by
    have := chain'_le_getD ps h (i - 1) (by omega)
    rwa [Nat.sub_add_cancel (by omega)] at this
  simp only [decide_eq_true_eq, not_and, not_lt]
  intro hc
  linarith

theorem resistanceIndices_eq_nil_of_chain_le (ps : List ℚ)
    (h : List.Chain' (· ≤ ·) ps) : resistanceIndices ps = [] := by
  rw [resistanceIndices, List.filter_eq_nil_iff]
  intro i hi
  rw [List.mem_range'_1] at hi
  have hlt : i + 1 < ps.length := by omega
  have h2 : ps.getD i 0 ≤ ps.getD (i + 1) 0 := chain'_le_getD ps h i hlt
  simp only [decide_eq_true_eq, not_and, not_lt]
  intro hc
  linarith

theorem fsr_eq_nil_of_chain_le (ps : List ℚ) (h : List.Chain' (· ≤ ·) ps) :
    find_support_resistance ps = ([], []) := by
  by_cases hl : ps.length < 3
  · exact fsr_short ps hl
  · rw [find_support_resistance, if_neg hl, supportIndices_eq_nil_of_chain_le ps h,
      resistanceIndices_eq_nil_of_chain_le ps h]
    rfl

/-! ### Helper lemmas about list minimum and maximum -/

theorem listMin_spec (l : List ℚ) (h : l ≠ []) :
    listMin l ∈ l ∧ ∀ x ∈ l, listMin l ≤ x := by
  cases hm : l.min? with
  | none => exact absurd (List.min?_eq_none_iff.mp hm) h
  | some a =>
    have heq : listMin l = a := by simp [listMin, hm]
    rw [heq]
    refine ⟨List.min?_mem (fun a b => min_choice a b) hm, ?_⟩
    exact (List.le_min?_iff (fun a b c => le_min_iff) hm).mp le_rfl

theorem listMax_spec (l : List ℚ) (h : l ≠ []) :
    listMax l ∈ l ∧ ∀ x ∈ l, x ≤ listMax l := by
  cases hm : l.max? with
  | none => exact absurd (List.max?_eq_none_iff.mp hm) h
  | some a =>
    have heq : listMax l = a := by simp [listMax, hm]
    rw [heq]
    refine ⟨List.max?_mem (fun a b => max_choice a b) hm, ?_⟩
    exact (List.max?_le_iff (fun a b c => max_le_iff) hm).mp le_rfl

theorem replicate_ne_nil (n : ℕ) (v : ℚ) (h : 1 ≤ n) : List.replicate n v ≠ [] := by
  intro hc
  have := congrArg List.length hc
  simp at this
  omega

theorem chain'_le_replicate (n : ℕ) (v : ℚ) :
    List.Chain' (· ≤ ·) (List.replicate n v) := by
  induction n with
  | zero => simp
  | succ m ih =>
    cases m with
    | zero => simp
    | succ k =>
      rw [List.replicate_succ, List.replicate_succ]
      refine List.chain'_cons.mpr ⟨le_rfl, ?_⟩
      rw [← List.replicate_succ]
      exact ih

theorem sma_replicate (n : ℕ) (v : ℚ) (h : 1 ≤ n) :
    calculate_sma (List.replicate n v) = v := by
  rw [calculate_sma, if_neg (replicate_ne_nil n v h), listMean_replicate n v h]

theorem ema_replicate (n : ℕ) (v : ℚ) (h : 1 ≤ n) (alpha : ℚ) :
    calculate_ema (List.replicate n v) alpha = v := by
  cases n with
  | zero => omega
  | succ m =>
    rw [List.replicate_succ, calculate_ema]
    exact ema_foldl_const alpha v m

theorem volatility_replicate (n : ℕ) (v : ℚ) (h : 1 ≤ n) :
    calculate_volatility (List.replicate n v) = 0 := by
  rw [calculate_volatility, if_neg (replicate_ne_nil n v h), variance_replicate n v h]
  push_cast
  exact Real.sqrt_zero

theorem rsiLoss_replicate (n : ℕ) (v : ℚ) : rsiLoss (List.replicate n v) = 0 := by
  apply rsiLoss_eq_zero_of_nonneg
  rw [deltas_replicate]
  intro d hd
  rw [List.eq_of_mem_replicate hd]

/-! ### Claim theorems -/

/-- C2 counterexample: the series `[5]` is non-empty and constant, yet
`calculate_rsi` returns 50, not 100 — the `len < 2` branch of
`calculate_rsi` fires before the `loss == 0` branch. -/
theorem claim2_counterexample :
    ([(5 : ℚ)] ≠ [] ∧ ∀ x ∈ [(5 : ℚ)], x = 5) ∧
      calculate_rsi [(5 : ℚ)] = 50 ∧ (50 : ℚ) ≠ 100 := by
  refine ⟨⟨by simp, by simp⟩, ?_, by norm_num⟩
  rfl

/-- C2 (amended): for every constant series of length at least 1,
volatility is 0, the SMA and the EMA (for every alpha) equal the
constant, and the detected supports and resistances are both empty;
the RSI is 100.0 when the length is at least 2, but 50.0 for the
singleton constant series. -/
theorem claim2_constant_series (v : ℚ) (n : ℕ) (h : 1 ≤ n) :
    calculate_volatility (List.replicate n v) = 0 ∧
    calculate_sma (List.replicate n v) = v ∧
    (∀ alpha : ℚ, calculate_ema (List.replicate n v) alpha = v) ∧
    (2 ≤ n → calculate_rsi (List.replicate n v) = 100) ∧
    (n = 1 → calculate_rsi (List.replicate n v) = 50) ∧
    find_support_resistance (List.replicate n v) = ([], []) := by
  refine ⟨volatility_replicate n v h, sma_replicate n v h,
    fun alpha => ema_replicate n v h alpha, fun h2 => ?_, fun h1 => ?_,
    fsr_eq_nil_of_chain_le _ (chain'_le_replicate n v)⟩
  · rw [calculate_rsi, if_neg (by simp; omega), if_pos (rsiLoss_replicate n v)]
  · subst h1
    rfl

/-- C2 witness: the constant series `[7, 7]` instantiates the amended
claim — its SMA is 7 and its RSI is 100. -/
theorem claim2_witness :
    calculate_sma (List.replicate 2 (7 : ℚ)) = 7 ∧
      calculate_rsi (List.replicate 2 (7 : ℚ)) = 100 :=
  ⟨(claim2_constant_series 7 2 (by norm_num)).2.1,
   (claim2_constant_series 7 2 (by norm_num)).2.2.2.1 (by norm_num)⟩

/-- C3: `calculate_rsi` returns 50.0 on series shorter than 2 points;
its `gain` accumulator equals the sum of the positive consecutive
deltas and its `loss` accumulator equals the total magnitude of the
negative consecutive deltas; it returns 100.0 when the loss is zero
and `100 - 100 / (1 + gain / loss)` otherwise. -/
theorem claim3_rsi (ps : List ℚ) :
    (ps.length < 2 → calculate_rsi ps = 50) ∧
    rsiGain ps = ((deltas ps).filter (fun d => d > 0)).sum ∧
    rsiLoss ps = (((deltas ps).filter (fun d => d < 0)).map (fun d => -d)).sum ∧
    (2 ≤ ps.length → rsiLoss ps = 0 → calculate_rsi ps = 100) ∧
    (2 ≤ ps.length → rsiLoss ps ≠ 0 →
      calculate_rsi ps = 100 - 100 / (1 + rsiGain ps / rsiLoss ps)) := by
  refine ⟨fun h => ?_, rsiGain_eq ps, rsiLoss_eq_magnitude ps,
    fun h2 hl => ?_, fun h2 hl => ?_⟩
  · rw [calculate_rsi, if_pos h]
  · rw [calculate_rsi, if_neg (by omega), if_pos hl]
  · rw [calculate_rsi, if_neg (by omega), if_neg hl]

/-- C3 witness: on `[1, 3, 2]` the loss is nonzero, so the RSI takes
the `100 - 100 / (1 + gain / loss)` branch; on the singleton `[9]` it
returns 50. -/
theorem claim3_rsi_witness :
    calculate_rsi [(1 : ℚ), 3, 2]
        = 100 - 100 / (1 + rsiGain [(1 : ℚ), 3, 2] / rsiLoss [(1 : ℚ), 3, 2]) ∧
      calculate_rsi [(9 : ℚ)] = 50 :=
  ⟨(claim3_rsi [(1 : ℚ), 3, 2]).2.2.2.2 (by norm_num) (by norm_num [rsiLoss, deltas]),
   (claim3_rsi [(9 : ℚ)]).1 (by norm_num)⟩

/-- C6: the two divisions of the core are explicitly guarded — when
`sma == 0` the risk ratio is 0 rather than `vol / sma`, and when the
accumulated loss is zero `calculate_rsi` returns 100 rather than
dividing by it.  (Totality is intrinsic to the embedding: every
function here is a total Lean function of its input series.) -/
theorem claim6_division_guards (vol sma : ℚ) (ps : List ℚ) :
    (sma = 0 → risk_ratio vol sma = 0) ∧
    (2 ≤ ps.length → rsiLoss ps = 0 → calculate_rsi ps = 100) := by
  refine ⟨fun h => ?_, fun h2 hl => ?_⟩
  · rw [risk_ratio, if_neg (by rw [h]; exact lt_irrefl 0)]
  · rw [calculate_rsi, if_neg (by omega), if_pos hl]

/-- C6 witness: with `sma = 0` the risk ratio is 0, and on the gaining
series `[1, 2]` the zero-loss guard yields RSI 100. -/
theorem claim6_witness :
    risk_ratio 5 0 = 0 ∧ calculate_rsi [(1 : ℚ), 2] = 100 :=
  ⟨(claim6_division_guards 5 0 []).1 rfl,
   (claim6_division_guards 5 0 [(1 : ℚ), 2]).2 (by norm_num) (by norm_num [rsiLoss, deltas])⟩

/-- C7: `calculate_ema` returns 0.0 on the empty series, returns the
single value on any one-element series for every alpha, and extends a
non-empty series by one price via the recurrence
`ema = alpha * x + (1 - alpha) * ema_prev`, in index order. -/
theorem claim7_ema (alpha : ℚ) :
    calculate_ema [] alpha = 0 ∧
    (∀ p : ℚ, calculate_ema [p] alpha = p) ∧
    (∀ (ps : List ℚ) (x : ℚ), ps ≠ [] →
      calculate_ema (ps ++ [x]) alpha
        = alpha * x + (1 - alpha) * calculate_ema ps alpha) := by
  refine ⟨rfl, fun p => rfl, fun ps x h => ?_⟩
  cases ps with
  | nil => exact absurd rfl h
  | cons p rest => simp [calculate_ema, List.foldl_append]

/-- C7 witness: extending `[1]` by the price 2 with alpha `1/2`
follows the recurrence. -/
theorem claim7_ema_witness :
    calculate_ema [(1 : ℚ), 2] (1/2)
      = (1/2) * 2 + (1 - 1/2) * calculate_ema [(1 : ℚ)] (1/2) := by
  have h := (claim7_ema (1/2)).2.2 [(1 : ℚ)] 2 (by simp)
  simpa using h

/-- C8: on every monotonically increasing series (non-decreasing, so
in particular every strictly increasing one) of length at least 2, the
RSI is 100.0 and no supports or resistances are detected. -/
theorem claim8_monotone_increasing (ps : List ℚ) (h2 : 2 ≤ ps.length)
    (hmono : List.Chain' (· ≤ ·) ps) :
    calculate_rsi ps = 100 ∧ find_support_resistance ps = ([], []) := by
  refine ⟨?_, fsr_eq_nil_of_chain_le ps hmono⟩
  have hl : rsiLoss ps = 0 :=
    rsiLoss_eq_zero_of_nonneg ps (deltas_nonneg_of_chain_le ps hmono)
  rw [calculate_rsi, if_neg (by omega), if_pos hl]

/-- C8 witness: the increasing series `[1, 2, 3]`. -/
theorem claim8_witness :
    calculate_rsi [(1 : ℚ), 2, 3] = 100 ∧
      find_support_resistance [(1 : ℚ), 2, 3] = ([], []) :=
  claim8_monotone_increasing [(1 : ℚ), 2, 3] (by norm_num)
    (by norm_num [List.chain'_cons])

/-- C10: on every strictly decreasing series of length at least 2, the
gain is 0 and the loss is positive, so
`calculate_rsi` returns `100 - 100 / (1 + 0)` = 0. -/
theorem claim10_strictly_decreasing (ps : List ℚ) (h2 : 2 ≤ ps.length)
    (hdec : List.Chain' (· > ·) ps) : calculate_rsi ps = 0 := by
  have hneg : ∀ d ∈ deltas ps, d < 0 := deltas_neg_of_chain_gt ps hdec
  have hgain : rsiGain ps = 0 := by
    rw [rsiGain_eq]
    have hfe : (deltas ps).filter (fun d => d > 0) = [] := by
      rw [List.filter_eq_nil_iff]
      intro d hd
      simpa using not_lt.mpr (hneg d hd).le
    rw [hfe]
    rfl
  have hdne : deltas ps ≠ [] := by
    cases ps with
    | nil => simp at h2
    | cons a tl =>
      cases tl with
      | nil => simp at h2
      | cons b l =>
        rw [deltas_cons₂]
        simp
  have hlpos : 0 < rsiLoss ps := by
    rw [rsiLoss_eq_magnitude]
    have hfe : (deltas ps).filter (fun d => d < 0) = deltas ps := by
      rw [List.filter_eq_self]
      intro d hd
      simpa using hneg d hd
    rw [hfe]
    refine List.sum_pos _ ?_ (by simpa using hdne)
    intro x hx
    obtain ⟨d, hd, rfl⟩ := List.mem_map.mp hx
    have := hneg d hd
    linarith
  rw [calculate_rsi, if_neg (by omega), if_neg (ne_of_gt hlpos), hgain, zero_div,
    add_zero]
  norm_num

/-- C10 witness: the strictly decreasing series `[3, 2, 1]`. -/
theorem claim10_witness : calculate_rsi [(3 : ℚ), 2, 1] = 0 :=
  claim10_strictly_decreasing [(3 : ℚ), 2, 1] (by norm_num)
    (by norm_num [List.chain'_cons])

/-- C1 counterexample: at `ema = sma = -100` the claimed
"bearish iff `ema < 0.99 * sma`" fails — the condition holds
(`-100 < -99`) yet the code classifies the trend as bullish, because
the bullish test `ema > 1.01 * sma` (`-100 > -101`) is checked first
and the two bands overlap when `sma < 0`. -/
theorem claim1_counterexample :
    ((-100 : ℚ) < (99/100) * (-100 : ℚ)) ∧
      trend (-100 : ℚ) (-100 : ℚ) = Trend.bullish ∧
      trend (-100 : ℚ) (-100 : ℚ) ≠ Trend.bearish := by
  have hb : trend (-100 : ℚ) (-100 : ℚ) = Trend.bullish := by
    rw [trend, if_pos (by norm_num)]
  refine ⟨by norm_num, hb, ?_⟩
  rw [hb]
  simp

/-- C1 (amended): the classifier is the fixed decision table of the
spec with one qualification — the trend is bullish iff
`ema > 1.01 * sma`, bearish iff `ema < 0.99 * sma` AND not bullish
(the bullish test is evaluated first; the two conditions can overlap
only when `sma < 0`), else neutral.  The risk ratio is `vol / sma`
when `sma > 0` and 0 otherwise; risk is high iff the ratio exceeds
0.08, medium iff it exceeds 0.04 and is not high, else low.  The
signal is buy iff the trend is bullish, `rsi < 60` and risk is not
high; sell iff the trend is bearish and `rsi > 40`; else hold. -/
theorem claim1_classifier (vol sma ema rsi : ℚ) :
    (trend ema sma = .bullish ↔ ema > (101/100) * sma) ∧
    (trend ema sma = .bearish ↔
      ema < (99/100) * sma ∧ ¬ ema > (101/100) * sma) ∧
    (trend ema sma = .neutral ↔
      ¬ ema > (101/100) * sma ∧ ¬ ema < (99/100) * sma) ∧
    (sma > 0 → risk_ratio vol sma = vol / sma) ∧
    (¬ sma > 0 → risk_ratio vol sma = 0) ∧
    (risk vol sma = .high ↔ risk_ratio vol sma > 8/100) ∧
    (risk vol sma = .medium ↔
      risk_ratio vol sma > 4/100 ∧ ¬ risk_ratio vol sma > 8/100) ∧
    (risk vol sma = .low ↔ ¬ risk_ratio vol sma > 4/100) ∧
    (∀ (t : Trend) (r : Risk),
      (final_signal t rsi r = .buy ↔ t = .bullish ∧ rsi < 60 ∧ r ≠ .high) ∧
      (final_signal t rsi r = .sell ↔ t = .bearish ∧ rsi > 40) ∧
      (final_signal t rsi r = .hold ↔
        ¬(t = .bullish ∧ rsi < 60 ∧ r ≠ .high) ∧ ¬(t = .bearish ∧ rsi > 40))) := by
  refine ⟨?_, ?_, ?_, fun h => by rw [risk_ratio, if_pos h],
    fun h => by rw [risk_ratio, if_neg h], ?_, ?_, ?_, fun t r => ⟨?_, ?_, ?_⟩⟩
  · rw [trend]
    split_ifs with h1 h2 <;> simp_all
  · rw [trend]
    split_ifs with h1 h2 <;> simp_all
  · rw [trend]
    split_ifs with h1 h2 <;> simp_all
  · rw [risk]
    split_ifs with h1 h2 <;> simp_all
  · rw [risk]
    split_ifs with h1 h2 <;> simp_all
  · rw [risk]
    split_ifs with h1 h2 <;> simp_all
    linarith
  · rw [final_signal]
    split_ifs with h1 h2 <;> simp_all
  · rw [final_signal]
    split_ifs with h1 h2 <;> simp_all
  · rw [final_signal]
    split_ifs with h1 h2 <;> simp_all

/-- C1 witness: the spec's own classifier test vector
`ema = 110, sma = 100, rsi = 55, vol = 3` — the ratio is `3/100` and
the trend is bullish. -/
theorem claim1_witness :
    risk_ratio 3 100 = 3 / 100 ∧ trend 110 100 = Trend.bullish := by
  constructor
  · rw [(claim1_classifier 3 100 110 55).2.2.2.1 (by norm_num)]
  · exact ((claim1_classifier 3 100 110 55).1).mpr (by norm_num)

/-- C4: `find_support_resistance` returns two empty sequences for
series shorter than 3 points; otherwise it reports exactly the prices
at the interior indices `1 ≤ i ≤ n-2` that are strictly below
(supports) or strictly above (resistances) both neighbors — so
boundary points and points with an equal neighbor are never reported,
no index is both a support and a resistance, and the results follow
index order. -/
theorem claim4_extrema (ps : List ℚ) :
    (ps.length < 3 → find_support_resistance ps = ([], [])) ∧
    (3 ≤ ps.length →
      (find_support_resistance ps).1
          = (supportIndices ps).map (fun i => ps.getD i 0) ∧
      (find_support_resistance ps).2
          = (resistanceIndices ps).map (fun i => ps.getD i 0)) ∧
    (∀ i, i ∈ supportIndices ps ↔
      1 ≤ i ∧ i + 1 < ps.length ∧
        ps.getD i 0 < ps.getD (i - 1) 0 ∧ ps.getD i 0 < ps.getD (i + 1) 0) ∧
    (∀ i, i ∈ resistanceIndices ps ↔
      1 ≤ i ∧ i + 1 < ps.length ∧
        ps.getD (i - 1) 0 < ps.getD i 0 ∧ ps.getD (i + 1) 0 < ps.getD i 0) ∧
    (∀ i, ¬ (i ∈ supportIndices ps ∧ i ∈ resistanceIndices ps)) ∧
    (supportIndices ps).Pairwise (· < ·) ∧
    (resistanceIndices ps).Pairwise (· < ·) := by
  refine ⟨fsr_short ps, fun h => ⟨fsr_fst ps h, fsr_snd ps h⟩,
    mem_supportIndices ps, mem_resistanceIndices ps, fun i hc => ?_, ?_, ?_⟩
  · obtain ⟨hs, hr⟩ := hc
    have h1 := (mem_supportIndices ps i).mp hs
    have h2 := (mem_resistanceIndices ps i).mp hr
    exact absurd h2.2.2.1 (not_lt.mpr h1.2.2.1.le)
  · exact List.Pairwise.filter _ (List.pairwise_lt_range' 1 (ps.length - 2))
  · exact List.Pairwise.filter _ (List.pairwise_lt_range' 1 (ps.length - 2))

/-- C4 witness: the two-point series `[1, 3]` yields empty sequences,
and on `[1, 3, 2]` the reported resistances are exactly the prices at
the qualifying interior indices. -/
theorem claim4_witness :
    find_support_resistance [(1 : ℚ), 3] = ([], []) ∧
      (find_support_resistance [(1 : ℚ), 3, 2]).2
        = (resistanceIndices [(1 : ℚ), 3, 2]).map
            (fun i => [(1 : ℚ), 3, 2].getD i 0) :=
  ⟨(claim4_extrema [(1 : ℚ), 3]).1 (by norm_num),
   ((claim4_extrema [(1 : ℚ), 3, 2]).2.1 (by norm_num)).2⟩

/-- C5: for every non-empty series, `support_level` is the minimum of
the detected supports when there are any and the minimum of the whole
series otherwise, and `resistance_level` is the maximum of the
detected resistances when there are any and the maximum of the whole
series otherwise — minimum and maximum in the genuine sense of a
member that bounds every element. -/
theorem claim5_levels (ps : List ℚ) (h : ps ≠ []) :
    ((find_support_resistance ps).1 ≠ [] →
      support_level ps ∈ (find_support_resistance ps).1 ∧
        ∀ x ∈ (find_support_resistance ps).1, support_level ps ≤ x) ∧
    ((find_support_resistance ps).1 = [] →
      support_level ps ∈ ps ∧ ∀ x ∈ ps, support_level ps ≤ x) ∧
    ((find_support_resistance ps).2 ≠ [] →
      resistance_level ps ∈ (find_support_resistance ps).2 ∧
        ∀ x ∈ (find_support_resistance ps).2, x ≤ resistance_level ps) ∧
    ((find_support_resistance ps).2 = [] →
      resistance_level ps ∈ ps ∧ ∀ x ∈ ps, x ≤ resistance_level ps) := by
  refine ⟨fun hs => ?_, fun hs => ?_, fun hr => ?_, fun hr => ?_⟩
  · rw [support_level, if_pos hs]
    exact listMin_spec _ hs
  · rw [support_level, if_neg (by simp [hs])]
    exact listMin_spec _ h
  · rw [resistance_level, if_pos hr]
    exact listMax_spec _ hr
  · rw [resistance_level, if_neg (by simp [hr])]
    exact listMax_spec _ h

/-- C5 witness: on `[3, 1, 3]` a support is detected and the level is
its minimum; on `[1, 2, 3]` nothing is detected and the resistance
level is the maximum of the whole series. -/
theorem claim5_witness :
    (support_level [(3 : ℚ), 1, 3] ∈ (find_support_resistance [(3 : ℚ), 1, 3]).1) ∧
      ∀ x ∈ [(1 : ℚ), 2, 3], x ≤ resistance_level [(1 : ℚ), 2, 3] := by
  have hsup : (find_support_resistance [(3 : ℚ), 1, 3]).1 ≠ [] := by
    rw [fsr_fst _ (by norm_num)]
    simp [supportIndices, List.range'_one, List.filter_cons]
  have hres : (find_support_resistance [(1 : ℚ), 2, 3]).2 = [] := by
    rw [fsr_eq_nil_of_chain_le _ (by norm_num [List.chain'_cons])]
  exact ⟨((claim5_levels [(3 : ℚ), 1, 3] (by simp)).1 hsup).1,
    ((claim5_levels [(1 : ℚ), 2, 3] (by simp)).2.2.2 hres).2⟩

/-- C9: for every non-empty series, all reported supports and
resistances are elements of the input series, and so are the derived
`support_level` and `resistance_level`. -/
theorem claim9_membership (ps : List ℚ) (h : ps ≠ []) :
    (∀ x ∈ (find_support_resistance ps).1, x ∈ ps) ∧
    (∀ x ∈ (find_support_resistance ps).2, x ∈ ps) ∧
    support_level ps ∈ ps ∧ resistance_level ps ∈ ps := by
  refine ⟨fun x hx => mem_fsr_fst ps x hx, fun x hx => mem_fsr_snd ps x hx, ?_, ?_⟩
  · by_cases hs : (find_support_resistance ps).1 = []
    · rw [support_level, if_neg (by simp [hs])]
      exact (listMin_spec ps h).1
    · rw [support_level, if_pos hs]
      exact mem_fsr_fst ps _ (listMin_spec _ hs).1
  · by_cases hr : (find_support_resistance ps).2 = []
    · rw [resistance_level, if_neg (by simp [hr])]
      exact (listMax_spec ps h).1
    · rw [resistance_level, if_pos hr]
      exact mem_fsr_snd ps _ (listMax_spec _ hr).1

/-- C9 witness: on `[1, 3, 2]` the resistance level is an element of
the input series. -/
theorem claim9_witness :
    resistance_level [(1 : ℚ), 3, 2] ∈ [(1 : ℚ), 3, 2] :=
  (claim9_membership [(1 : ℚ), 3, 2] (by simp)).2.2.2

end TradingEngine
